import Mathlib

/-!
Shallow embedding of the paper-trading ledger engine of `src/crypto_bot.py`.

Python `Decimal` values are modelled as exact rationals (`ℚ`); the code's
`quantize(..., rounding=ROUND_DOWN)` calls are modelled by `quantDown`
(truncation toward zero at a fixed number of decimal places), and `Decimal`
division — which raises `DivisionByZero` on a zero divisor — is modelled by
the partial function `ddiv`.  All persisted state for one user (the `users`
row, the `portfolio` rows and the `history` rows touched by that user's
commands) is collected in `LedgerState`; the network is modelled by the
`NetResponse` argument threaded to `get_price`.
-/

namespace CryptoBot

/-- Truncation toward zero of a rational to an integer, the integer core of
`Decimal`'s `ROUND_DOWN` rounding mode. -/
def truncTowardZero (x : ℚ) : ℤ :=
  if 0 ≤ x then ⌊x⌋ else -⌊-x⌋

/-- Model of `x.quantize(Decimal("0.0...01"), rounding=ROUND_DOWN)` with `nd` decimal
places: truncate toward zero at the `nd`-th decimal place. -/
def quantDown (nd : ℕ) (x : ℚ) : ℚ :=
  (truncTowardZero (x * (10 : ℚ) ^ nd) : ℚ) / (10 : ℚ) ^ nd

/-- Model of `Decimal` division: raises (`none`) on a zero divisor, exact otherwise. -/
def ddiv (a b : ℚ) : Option ℚ :=
  if b = 0 then none else some (a / b)

example : truncTowardZero (7 / 2 : ℚ) = 3 := by norm_num [truncTowardZero]
example : truncTowardZero (-7 / 2 : ℚ) = -3 := by norm_num [truncTowardZero]
example : quantDown 4 ((100 : ℚ) / 50000) = 1 / 500 := by
  norm_num [quantDown, truncTowardZero]
example : quantDown 2 ((1 / 500 : ℚ) * 60000) = 120 := by
  norm_num [quantDown, truncTowardZero]
example : (0 : ℚ) < 50000 := by decide

/-- Constant `INITIAL_USD_BALANCE = Decimal("10000.00")`. -/
def INITIAL_USD_BALANCE : ℚ := 10000

/-- Constant `AVAILABLE_COINS`: the fixed coin → Binance-pair mapping. -/
def AVAILABLE_COINS : List (String × String) :=
  [("btc", "BTCUSDT"), ("eth", "ETHUSDT"), ("bnb", "BNBUSDT"),
   ("ada", "ADAUSDT"), ("usdt", "USDTUSDT")]

/-- Dictionary lookup `AVAILABLE_COINS[coin]`; `none` models `coin not in
AVAILABLE_COINS`. -/
def coinPair (coin : String) : Option String :=
  (AVAILABLE_COINS.find? (fun r => r.1 == coin)).map (fun r => r.2)

/-- One network interaction as seen by `get_price`:
* `netError` — any exception inside the `try` block (connection error,
  timeout, non-2xx from `raise_for_status`, invalid JSON, or a `price`
  field that is present but fails `Decimal(...)`, which raises
  `InvalidOperation` and is caught by the bare `except`);
* `jsonNoPrice` — a 2xx JSON response without a `price` field
  (`data.get("price")` is `None`);
* `jsonPrice p` — a 2xx JSON response whose `price` field parses as the
  decimal `p`. -/
inductive NetResponse where
  | netError : NetResponse
  | jsonNoPrice : NetResponse
  | jsonPrice : ℚ → NetResponse
  deriving DecidableEq

/-- Model of `get_price(symbol)`: the fixed `USDTUSDT` special case never consults
the network; otherwise the outcome of the single HTTP fetch decides the
result, and every failure is mapped to `None`. -/
def get_price (symbol : String) (net : NetResponse) : Option ℚ :=
  if symbol == "USDTUSDT" then some 1
  else
    match net with
    | .netError => none
    | .jsonNoPrice => none
    | .jsonPrice p => some p

/-- One row of the `history` table (for a fixed user).  `id` is the
`AUTOINCREMENT` primary key, `timestamp` the `CURRENT_TIMESTAMP` value at
insertion time (an abstract clock reading). -/
structure HistoryEntry where
  id : ℕ
  action : String
  coin : String
  amount : ℚ
  price : ℚ
  timestamp : ℕ
  deriving DecidableEq

/-- The persisted state belonging to one user: their `users.usd_balance`
cell, their `portfolio` rows (coin, amount — stored in row order), their
`history` rows (in insertion order), and the next history sequence id. -/
structure LedgerState where
  usd_balance : ℚ
  portfolio : List (String × ℚ)
  history : List HistoryEntry
  next_id : ℕ
  deriving DecidableEq

/-- A fresh account as created by `ensure_user`: `INITIAL_USD_BALANCE`,
no portfolio rows, no history. -/
def freshState : LedgerState :=
  ⟨INITIAL_USD_BALANCE, [], [], 0⟩

/-- Model of `get_portfolio(user).get(coin, Decimal("0"))`: the stored amount of
`coin`, or `0` when no row exists. -/
def portfolioGet (p : List (String × ℚ)) (coin : String) : ℚ :=
  match p.find? (fun r => r.1 == coin) with
  | some r => r.2
  | none => 0

/-- Whether a `portfolio` row for `coin` exists. -/
def hasRow (p : List (String × ℚ)) (coin : String) : Bool :=
  p.any (fun r => r.1 == coin)

/-- Model of `update_portfolio(user, coin, amount)`: `DELETE` the row when
`amount <= 0`, otherwise `INSERT ... ON CONFLICT DO UPDATE` (update the
existing row in place, or append a new row). -/
def update_portfolio (p : List (String × ℚ)) (coin : String) (amount : ℚ) :
    List (String × ℚ) :=
  if amount ≤ 0 then p.filter (fun r => !(r.1 == coin))
  else if hasRow p coin then
    p.map (fun r => if r.1 == coin then (coin, amount) else r)
  else p ++ [(coin, amount)]

/-- Model of `add_history(user, action, coin, amount, price)`: append one row with
the next sequence id and the current clock reading. -/
def add_history (st : LedgerState) (action coin : String) (amount price : ℚ)
    (now : ℕ) : LedgerState :=
  { st with
    history := st.history ++ [⟨st.next_id, action, coin, amount, price, now⟩],
    next_id := st.next_id + 1 }

example : coinPair "btc" = some "BTCUSDT" := by decide
example : coinPair "doge" = none := by decide
example : get_price "USDTUSDT" .netError = some 1 := by decide
example : portfolioGet (update_portfolio [] "btc" (1 / 500)) "btc" = 1 / 500 := by
  norm_num [update_portfolio, portfolioGet, hasRow]

/-- The argument text of a `/buy` or `/sell` command after
`get_args().lower().split()`:
* `malformed` — `len(parts) != 2`;
* `args coin num` — two tokens, where `num` is `some v` when
  `Decimal(token)` parses as `v` and `none` when it raises (caught by the
  `try`/`except`). -/
inductive RawArg where
  | malformed : RawArg
  | args : String → Option ℚ → RawArg
  deriving DecidableEq

/-- Outcome classification of one trade command.  `crash` is an uncaught
exception escaping the handler (the only source in the embedded code is
`Decimal` division by a zero price in `cmd_buy`). -/
inductive TradeResult where
  | success : ℚ → ℚ → TradeResult
  | invalidInput : TradeResult
  | insufficientFunds : TradeResult
  | insufficientHoldings : TradeResult
  | priceUnavailable : TradeResult
  | crash : TradeResult
  deriving DecidableEq

/-- Predicate `isSuccess r` is true exactly on `success`. -/
def TradeResult.isSuccess : TradeResult → Bool
  | .success _ _ => true
  | _ => false

/-- Pipeline steps of the spec's trade state machine.  `acquireLock` and
`release` are in the vocabulary because the spec names them; the embedded
code never emits them (it has no per-user lock). -/
inductive Event where
  | validate : Event
  | acquireLock : Event
  | fetchPrice : Event
  | checkSufficiency : Event
  | atomicApply : Event
  | release : Event
  deriving DecidableEq

/-- Result, post-state and executed pipeline steps of one command. -/
structure TradeOutcome where
  result : TradeResult
  state : LedgerState
  events : List Event
  deriving DecidableEq

/-- First write of a buy: `update_usd_balance(user_id, balance - usd_amount)`
(its own autocommit connection). -/
def buyWriteBalance (st : LedgerState) (usd_amount : ℚ) : LedgerState :=
  { st with usd_balance := st.usd_balance - usd_amount }

/-- Second write of a buy:
`update_portfolio(user_id, coin, current_portfolio.get(coin, 0) + coin_amount)`
(its own autocommit connection). -/
def buyWriteHolding (st : LedgerState) (coin : String) (coin_amount : ℚ) :
    LedgerState :=
  { st with portfolio :=
      (update_portfolio st.portfolio coin
        (portfolioGet st.portfolio coin + coin_amount)) }

/-- The observable states during a buy's apply phase: each helper opens its
own `sqlite3` connection with `isolation_level=None` (autocommit), so the
states after each single statement are externally visible.  Order in the
source: balance, then portfolio, then history. -/
def buyApplyTrace (st : LedgerState) (coin : String)
    (usd_amount coin_amount price : ℚ) (now : ℕ) : List LedgerState :=
  let s1 := buyWriteBalance st usd_amount
  let s2 := buyWriteHolding s1 coin coin_amount
  let s3 := add_history s2 "buy" coin coin_amount price now
  [st, s1, s2, s3]

/-- Final state of a buy's apply phase. -/
def buyApply (st : LedgerState) (coin : String)
    (usd_amount coin_amount price : ℚ) (now : ℕ) : LedgerState :=
  add_history (buyWriteHolding (buyWriteBalance st usd_amount) coin coin_amount)
    "buy" coin coin_amount price now

/-- First write of a sell: `update_portfolio(user_id, coin, have - coin_amount)`
(note: the portfolio is written before the balance). -/
def sellWriteHolding (st : LedgerState) (coin : String) (coin_amount : ℚ) :
    LedgerState :=
  { st with portfolio :=
      (update_portfolio st.portfolio coin
        (portfolioGet st.portfolio coin - coin_amount)) }

/-- Second write of a sell:
`update_usd_balance(user_id, get_usd_balance(user_id) + usd_gain)`. -/
def sellWriteBalance (st : LedgerState) (usd_gain : ℚ) : LedgerState :=
  { st with usd_balance := st.usd_balance + usd_gain }

/-- The observable states during a sell's apply phase (portfolio, then
balance, then history — each statement autocommitted separately). -/
def sellApplyTrace (st : LedgerState) (coin : String)
    (coin_amount usd_gain price : ℚ) (now : ℕ) : List LedgerState :=
  let s1 := sellWriteHolding st coin coin_amount
  let s2 := sellWriteBalance s1 usd_gain
  let s3 := add_history s2 "sell" coin coin_amount price now
  [st, s1, s2, s3]

/-- Final state of a sell's apply phase. -/
def sellApply (st : LedgerState) (coin : String)
    (coin_amount usd_gain price : ℚ) (now : ℕ) : LedgerState :=
  add_history (sellWriteBalance (sellWriteHolding st coin coin_amount) usd_gain)
    "sell" coin coin_amount price now

/-- Model of `cmd_buy`, straight from the handler body: argument-shape check, coin
membership check, `Decimal` parse and positivity check, balance
sufficiency check, price fetch, then the quantity computation
`(usd_amount / price).quantize(Decimal("0.0001"), rounding=ROUND_DOWN)`
and the three writes.  A zero fetched price makes the division raise
(`crash`); no failure path performs any write. -/
def cmd_buy (st : LedgerState) (input : RawArg) (net : NetResponse)
    (now : ℕ) : TradeOutcome :=
  match input with
  | .malformed => ⟨.invalidInput, st, [.validate]⟩
  | .args coin num =>
    match coinPair coin with
    | none => ⟨.invalidInput, st, [.validate]⟩
    | some pair =>
      match num with
      | none => ⟨.invalidInput, st, [.validate]⟩
      | some usd_amount =>
        if usd_amount ≤ 0 then ⟨.invalidInput, st, [.validate]⟩
        else if st.usd_balance < usd_amount then
          ⟨.insufficientFunds, st, [.validate, .checkSufficiency]⟩
        else
          match get_price pair net with
          | none => ⟨.priceUnavailable, st,
              [.validate, .checkSufficiency, .fetchPrice]⟩
          | some price =>
            match ddiv usd_amount price with
            | none => ⟨.crash, st, [.validate, .checkSufficiency, .fetchPrice]⟩
            | some q =>
              let coin_amount := quantDown 4 q
              ⟨.success coin_amount price,
               buyApply st coin usd_amount coin_amount price now,
               [.validate, .checkSufficiency, .fetchPrice, .atomicApply]⟩

/-- Model of `cmd_sell`, straight from the handler body: argument-shape check, coin
membership check, `Decimal` parse and positivity check, holding
sufficiency check (`have = portfolio.get(coin, 0)`), price fetch, then
`usd_gain = (coin_amount * price).quantize(Decimal("0.01"), ROUND_DOWN)`
and the three writes. -/
def cmd_sell (st : LedgerState) (input : RawArg) (net : NetResponse)
    (now : ℕ) : TradeOutcome :=
  match input with
  | .malformed => ⟨.invalidInput, st, [.validate]⟩
  | .args coin num =>
    match coinPair coin with
    | none => ⟨.invalidInput, st, [.validate]⟩
    | some pair =>
      match num with
      | none => ⟨.invalidInput, st, [.validate]⟩
      | some coin_amount =>
        if coin_amount ≤ 0 then ⟨.invalidInput, st, [.validate]⟩
        else if portfolioGet st.portfolio coin < coin_amount then
          ⟨.insufficientHoldings, st, [.validate, .checkSufficiency]⟩
        else
          match get_price pair net with
          | none => ⟨.priceUnavailable, st,
              [.validate, .checkSufficiency, .fetchPrice]⟩
          | some price =>
            let usd_gain := quantDown 2 (coin_amount * price)
            ⟨.success coin_amount price,
             sellApply st coin coin_amount usd_gain price now,
             [.validate, .checkSufficiency, .fetchPrice, .atomicApply]⟩

/-- One mutating command together with the network response its single
price fetch would see. -/
inductive Op where
  | buy : RawArg → NetResponse → Op
  | sell : RawArg → NetResponse → Op

/-- Run one command at clock reading `now`. -/
def runOp (st : LedgerState) (op : Op) (now : ℕ) : TradeOutcome :=
  match op with
  | .buy input net => cmd_buy st input net now
  | .sell input net => cmd_sell st input net now

/-- Run a sequence of commands, each paired with its clock reading. -/
def runOps (st : LedgerState) : List (Op × ℕ) → LedgerState
  | [] => st
  | p :: rest => runOps (runOp st p.1 p.2).state rest

/-- The solvency invariant: non-negative USD balance and every stored
portfolio row strictly positive. -/
def Solvent (st : LedgerState) : Prop :=
  0 ≤ st.usd_balance ∧ ∀ r ∈ st.portfolio, 0 < r.2

/-- Truncation of a non-negative value is non-negative. -/
lemma quantDown_nonneg {x : ℚ} (nd : ℕ) (h : 0 ≤ x) : 0 ≤ quantDown nd x := by
  have hx : (0 : ℚ) ≤ x * (10 : ℚ) ^ nd := by positivity
  unfold quantDown truncTowardZero
  rw [if_pos hx]
  have hf : (0 : ℤ) ≤ ⌊x * (10 : ℚ) ^ nd⌋ := Int.floor_nonneg.mpr hx
  positivity

/-- Truncation of a positive value times a positive power stays ≥ 0; the
version for products used on the sell path. -/
lemma quantDown_mul_nonneg {a b : ℚ} (nd : ℕ) (ha : 0 ≤ a) (hb : 0 ≤ b) :
    0 ≤ quantDown nd (a * b) :=
  quantDown_nonneg nd (mul_nonneg ha hb)

/-- No row for `coin` survives a filter that removes `coin`. -/
lemma find?_filter_self (p : List (String × ℚ)) (coin : String) :
    (p.filter (fun r => !(r.1 == coin))).find? (fun r => r.1 == coin) = none := by
  rw [List.find?_eq_none]
  intro x hx
  rcases List.mem_filter.mp hx with ⟨-, hkeep⟩
  simpa using hkeep

/-- Reading back the coin just written: when the written amount is
non-negative, `portfolioGet` returns exactly that amount (a zero amount is
stored as row deletion, and absence reads as `0`). -/
lemma portfolioGet_update_self (p : List (String × ℚ)) (coin : String)
    {v : ℚ} (hv : 0 ≤ v) :
    portfolioGet (update_portfolio p coin v) coin = v := by
  unfold update_portfolio
  by_cases h0 : v ≤ 0
  · have hv0 : v = 0 := le_antisymm h0 hv
    rw [if_pos h0]
    unfold portfolioGet
    rw [find?_filter_self]
    exact hv0.symm
  · rw [if_neg h0]
    by_cases hr : hasRow p coin
    · rw [if_pos hr]
      unfold hasRow at hr
      induction p with
      | nil => simp at hr
      | cons a t ih =>
        by_cases ha : a.1 == coin
        · unfold portfolioGet
          simp only [List.map_cons, List.find?_cons, ha, if_pos]
          simp
        · have ht : t.any (fun r => r.1 == coin) := by
            simp only [List.any_cons, ha] at hr
            simpa using hr
          unfold portfolioGet at ih ⊢
          simp only [List.map_cons, List.find?_cons, ha]
          simpa [ha] using ih ht
    · rw [if_neg hr]
      unfold portfolioGet
      unfold hasRow at hr
      induction p with
      | nil => simp
      | cons a t ih =>
        have ha : (a.1 == coin) = false := by
          by_contra hcon
          exact hr (by simp [List.any_cons, Bool.of_not_eq_false hcon])
        have ht : ¬ t.any (fun r => r.1 == coin) := by
          intro hcon
          exact hr (by simp [List.any_cons, hcon])
        simp only [List.cons_append, List.find?_cons, ha]
        simpa [ha] using ih ht

/-- A deletion (`amount ≤ 0`) really removes the row. -/
lemma hasRow_update_nonpos (p : List (String × ℚ)) (coin : String)
    {v : ℚ} (hv : v ≤ 0) :
    hasRow (update_portfolio p coin v) coin = false := by
  unfold update_portfolio
  rw [if_pos hv]
  unfold hasRow
  rw [List.any_eq_false]
  intro x hx
  rcases List.mem_filter.mp hx with ⟨-, hkeep⟩
  simpa using hkeep

/-- Lemma: `update_portfolio` keeps all stored rows strictly positive, for any
written amount: a non-positive amount deletes the row, a positive one is
stored as written. -/
lemma update_portfolio_rows_pos {p : List (String × ℚ)} (coin : String)
    (v : ℚ) (hp : ∀ r ∈ p, 0 < r.2) :
    ∀ r ∈ update_portfolio p coin v, 0 < r.2 := by
  unfold update_portfolio
  by_cases h0 : v ≤ 0
  · rw [if_pos h0]
    intro r hr
    exact hp r (List.mem_of_mem_filter hr)
  · rw [if_neg h0]
    by_cases hr : hasRow p coin
    · rw [if_pos hr]
      intro r hmem
      rcases List.mem_map.mp hmem with ⟨a, ha, rfl⟩
      by_cases hk : (a.1 == coin) = true
      · rw [if_pos hk]
        exact lt_of_not_le h0
      · rw [if_neg hk]
        exact hp a ha
    · rw [if_neg hr]
      intro r hmem
      rcases List.mem_append.mp hmem with h | h
      · exact hp r h
      · rcases List.mem_singleton.mp h with rfl
        exact lt_of_not_le h0

/-- Under the solvency invariant a portfolio read is non-negative. -/
lemma portfolioGet_nonneg {st : LedgerState} (hs : Solvent st)
    (coin : String) : 0 ≤ portfolioGet st.portfolio coin := by
  unfold portfolioGet
  cases hfind : st.portfolio.find? (fun r => r.1 == coin) with
  | none => exact le_refl 0
  | some r =>
    exact le_of_lt (hs.2 r (List.mem_of_find?_eq_some hfind))

/-- Reduction of `cmd_buy` on the success path. -/
lemma cmd_buy_success {st : LedgerState} {coin pair : String} {U P : ℚ}
    {net : NetResponse} (now : ℕ)
    (hpair : coinPair coin = some pair)
    (hprice : get_price pair net = some P) (hP : P ≠ 0)
    (hU : 0 < U) (hUB : U ≤ st.usd_balance) :
    cmd_buy st (.args coin (some U)) net now =
      ⟨.success (quantDown 4 (U / P)) P,
       buyApply st coin U (quantDown 4 (U / P)) P now,
       [.validate, .checkSufficiency, .fetchPrice, .atomicApply]⟩ := by
  simp only [cmd_buy, hpair, hprice, ddiv, if_neg hP,
    if_neg (not_le.mpr hU), if_neg (not_lt.mpr hUB)]

/-- Reduction of `cmd_sell` on the success path. -/
lemma cmd_sell_success {st : LedgerState} {coin pair : String} {Q P : ℚ}
    {net : NetResponse} (now : ℕ)
    (hpair : coinPair coin = some pair)
    (hprice : get_price pair net = some P)
    (hQ : 0 < Q) (hQH : Q ≤ portfolioGet st.portfolio coin) :
    cmd_sell st (.args coin (some Q)) net now =
      ⟨.success Q P,
       sellApply st coin Q (quantDown 2 (Q * P)) P now,
       [.validate, .checkSufficiency, .fetchPrice, .atomicApply]⟩ := by
  simp only [cmd_sell, hpair, hprice,
    if_neg (not_le.mpr hQ), if_neg (not_lt.mpr hQH)]

/-- Field computations of `buyApply`. -/
lemma buyApply_fields (st : LedgerState) (coin : String)
    (U ca P : ℚ) (now : ℕ) :
    (buyApply st coin U ca P now).usd_balance = st.usd_balance - U ∧
    (buyApply st coin U ca P now).portfolio =
      update_portfolio st.portfolio coin (portfolioGet st.portfolio coin + ca) ∧
    (buyApply st coin U ca P now).history =
      st.history ++ [⟨st.next_id, "buy", coin, ca, P, now⟩] := by
  refine ⟨rfl, rfl, rfl⟩

/-- Field computations of `sellApply`. -/
lemma sellApply_fields (st : LedgerState) (coin : String)
    (Q g P : ℚ) (now : ℕ) :
    (sellApply st coin Q g P now).usd_balance = st.usd_balance + g ∧
    (sellApply st coin Q g P now).portfolio =
      update_portfolio st.portfolio coin (portfolioGet st.portfolio coin - Q) ∧
    (sellApply st coin Q g P now).history =
      st.history ++ [⟨st.next_id, "sell", coin, Q, P, now⟩] := by
  refine ⟨rfl, rfl, rfl⟩

/-- The pipeline steps the handlers actually execute, in source order:
validation, sufficiency check against state read without any lock, price
fetch, apply. -/
def STEP_ORDER : List Event :=
  [.validate, .checkSufficiency, .fetchPrice, .atomicApply]

/-- Exhaustive outcome analysis of `cmd_buy`: every failure leaves the
state untouched and executes an initial segment of `STEP_ORDER`; the
success outcome is fully determined by the validated input, the fetched
nonzero price and the sufficiency check. -/
lemma cmd_buy_cases (st : LedgerState) (input : RawArg) (net : NetResponse)
    (now : ℕ) :
    cmd_buy st input net now = ⟨.invalidInput, st, [.validate]⟩ ∨
    cmd_buy st input net now
      = ⟨.insufficientFunds, st, [.validate, .checkSufficiency]⟩ ∨
    cmd_buy st input net now
      = ⟨.priceUnavailable, st, [.validate, .checkSufficiency, .fetchPrice]⟩ ∨
    cmd_buy st input net now
      = ⟨.crash, st, [.validate, .checkSufficiency, .fetchPrice]⟩ ∨
    ∃ coin pair U P, input = .args coin (some U) ∧ coinPair coin = some pair ∧
      get_price pair net = some P ∧ P ≠ 0 ∧ 0 < U ∧ U ≤ st.usd_balance ∧
      cmd_buy st input net now =
        ⟨.success (quantDown 4 (U / P)) P,
         buyApply st coin U (quantDown 4 (U / P)) P now, STEP_ORDER⟩ := by
  rcases input with _ | ⟨coin, num⟩
  · exact Or.inl rfl
  · cases hcp : coinPair coin with
    | none => left; simp [cmd_buy, hcp]
    | some pair =>
      rcases num with _ | U
      · left; simp [cmd_buy, hcp]
      · by_cases hU : U ≤ 0
        · left; simp [cmd_buy, hcp, if_pos hU]
        · by_cases hB : st.usd_balance < U
          · right; left; simp [cmd_buy, hcp, if_neg hU, if_pos hB]
          · cases hgp : get_price pair net with
            | none =>
              right; right; left
              simp [cmd_buy, hcp, if_neg hU, if_neg hB, hgp]
            | some P =>
              by_cases hP : P = 0
              · right; right; right; left
                simp [cmd_buy, hcp, if_neg hU, if_neg hB, hgp, ddiv, if_pos hP]
              · right; right; right; right
                refine ⟨coin, pair, U, P, rfl, hcp, hgp, hP,
                  lt_of_not_le hU, not_lt.mp hB, ?_⟩
                simp [cmd_buy, hcp, if_neg hU, if_neg hB, hgp, ddiv,
                  if_neg hP, STEP_ORDER]

/-- Exhaustive outcome analysis of `cmd_sell` (no crash case: the sell
path multiplies instead of dividing). -/
lemma cmd_sell_cases (st : LedgerState) (input : RawArg) (net : NetResponse)
    (now : ℕ) :
    cmd_sell st input net now = ⟨.invalidInput, st, [.validate]⟩ ∨
    cmd_sell st input net now
      = ⟨.insufficientHoldings, st, [.validate, .checkSufficiency]⟩ ∨
    cmd_sell st input net now
      = ⟨.priceUnavailable, st, [.validate, .checkSufficiency, .fetchPrice]⟩ ∨
    ∃ coin pair Q P, input = .args coin (some Q) ∧ coinPair coin = some pair ∧
      get_price pair net = some P ∧ 0 < Q ∧
      Q ≤ portfolioGet st.portfolio coin ∧
      cmd_sell st input net now =
        ⟨.success Q P,
         sellApply st coin Q (quantDown 2 (Q * P)) P now, STEP_ORDER⟩ := by
  rcases input with _ | ⟨coin, num⟩
  · exact Or.inl rfl
  · cases hcp : coinPair coin with
    | none => left; simp [cmd_sell, hcp]
    | some pair =>
      rcases num with _ | Q
      · left; simp [cmd_sell, hcp]
      · by_cases hQ : Q ≤ 0
        · left; simp [cmd_sell, hcp, if_pos hQ]
        · by_cases hH : portfolioGet st.portfolio coin < Q
          · right; left; simp [cmd_sell, hcp, if_neg hQ, if_pos hH]
          · cases hgp : get_price pair net with
            | none =>
              right; right; left
              simp [cmd_sell, hcp, if_neg hQ, if_neg hH, hgp]
            | some P =>
              right; right; right
              refine ⟨coin, pair, Q, P, rfl, hcp, hgp,
                lt_of_not_le hQ, not_lt.mp hH, ?_⟩
              simp [cmd_sell, hcp, if_neg hQ, if_neg hH, hgp, STEP_ORDER]

/-- C1: for a buy with balance `B`, fetched unit price `P > 0` and
requested USD amount `U` with `0 < U ≤ B`, the executed trade sets the new
balance to exactly `B − U` and increases the holding of the coin by
exactly `floor(U / P)` truncated down to 4 decimal places. -/
theorem buy_conservation (st : LedgerState) (coin pair : String) (U P : ℚ)
    (net : NetResponse) (now : ℕ)
    (hpair : coinPair coin = some pair)
    (hprice : get_price pair net = some P) (hP : 0 < P)
    (hU : 0 < U) (hUB : U ≤ st.usd_balance)
    (hold : 0 ≤ portfolioGet st.portfolio coin) :
    (cmd_buy st (.args coin (some U)) net now).state.usd_balance
        = st.usd_balance - U ∧
    portfolioGet (cmd_buy st (.args coin (some U)) net now).state.portfolio coin
        = portfolioGet st.portfolio coin + quantDown 4 (U / P) ∧
    (cmd_buy st (.args coin (some U)) net now).result
        = .success (quantDown 4 (U / P)) P := by
  rw [cmd_buy_success now hpair hprice (ne_of_gt hP) hU hUB]
  have hq : 0 ≤ quantDown 4 (U / P) :=
    quantDown_nonneg 4 (le_of_lt (div_pos hU hP))
  refine ⟨rfl, ?_, rfl⟩
  show portfolioGet
      (update_portfolio st.portfolio coin
        (portfolioGet st.portfolio coin + quantDown 4 (U / P))) coin = _
  exact portfolioGet_update_self st.portfolio coin (by linarith)

/-- Witness for C1 at the spec's own example: fresh account, buy `btc`
with 100 USD at price 50000 → balance 9900, holding 0.0020. -/
theorem buy_conservation_witness :
    (cmd_buy freshState (.args "btc" (some 100))
        (.jsonPrice 50000) 0).state.usd_balance = 9900 ∧
    portfolioGet (cmd_buy freshState (.args "btc" (some 100))
        (.jsonPrice 50000) 0).state.portfolio "btc" = 1 / 500 := by
  have h := buy_conservation freshState "btc" "BTCUSDT" 100 50000
    (.jsonPrice 50000) 0 (by decide) (by decide) (by norm_num) (by norm_num)
    (by norm_num [freshState, INITIAL_USD_BALANCE])
    (by simp [freshState, portfolioGet])
  refine ⟨?_, ?_⟩
  · rw [h.1]
    norm_num [freshState, INITIAL_USD_BALANCE]
  · rw [h.2.1]
    norm_num [freshState, portfolioGet, quantDown, truncTowardZero]

/-- C2: for a sell with holding `H`, requested quantity `Q` with
`0 < Q ≤ H` and fetched unit price `P`, the executed trade sets the new
holding to exactly `H − Q` (the row being deleted when `H − Q = 0`),
credits `usd_gain = floor(Q × P)` truncated down to 2 decimal places, and
sets the new balance to `old_balance + usd_gain`. -/
theorem sell_conservation (st : LedgerState) (coin pair : String) (Q P : ℚ)
    (net : NetResponse) (now : ℕ)
    (hpair : coinPair coin = some pair)
    (hprice : get_price pair net = some P)
    (hQ : 0 < Q) (hQH : Q ≤ portfolioGet st.portfolio coin) :
    portfolioGet (cmd_sell st (.args coin (some Q)) net now).state.portfolio coin
        = portfolioGet st.portfolio coin - Q ∧
    (portfolioGet st.portfolio coin - Q = 0 →
      hasRow (cmd_sell st (.args coin (some Q)) net now).state.portfolio coin
        = false) ∧
    (cmd_sell st (.args coin (some Q)) net now).state.usd_balance
        = st.usd_balance + quantDown 2 (Q * P) ∧
    (cmd_sell st (.args coin (some Q)) net now).result = .success Q P := by
  rw [cmd_sell_success now hpair hprice hQ hQH]
  refine ⟨?_, ?_, rfl, rfl⟩
  · show portfolioGet
        (update_portfolio st.portfolio coin
          (portfolioGet st.portfolio coin - Q)) coin = _
    exact portfolioGet_update_self st.portfolio coin (by linarith)
  · intro hzero
    show hasRow
        (update_portfolio st.portfolio coin
          (portfolioGet st.portfolio coin - Q)) coin = false
    exact hasRow_update_nonpos st.portfolio coin (le_of_eq hzero)

/-- A network response whose price payload, if any, is non-negative — the
oracle never quotes a negative market price. -/
def NetResponse.nonnegPrice : NetResponse → Prop
  | .jsonPrice p => 0 ≤ p
  | _ => True

/-- Under a non-negative network response every fetched price is
non-negative (the fixed `USDTUSDT` price is `1`). -/
lemma get_price_nonneg {sym : String} {net : NetResponse} {p : ℚ}
    (hn : net.nonnegPrice) (h : get_price sym net = some p) : 0 ≤ p := by
  unfold get_price at h
  by_cases hs : (sym == "USDTUSDT") = true
  · rw [if_pos hs] at h
    cases h
    norm_num
  · rw [if_neg hs] at h
    cases net with
    | netError => cases h
    | jsonNoPrice => cases h
    | jsonPrice q =>
      cases h
      exact hn

/-- The prices an `Op` can consume are non-negative.  A buy needs no
condition: whatever the price, the buy either crashes without writing
(zero price), debits `U ≤ B`, and stores only strictly positive holding
rows. -/
def Op.pricesNonneg : Op → Prop
  | .buy _ _ => True
  | .sell _ net => net.nonnegPrice

/-- One command preserves solvency (a sell needs a non-negatively priced
response). -/
lemma solvent_runOp {st : LedgerState} (op : Op) (now : ℕ)
    (hs : Solvent st) (hn : op.pricesNonneg) :
    Solvent (runOp st op now).state := by
  cases op with
  | buy input net =>
    rcases cmd_buy_cases st input net now with h | h | h | h |
      ⟨coin, pair, U, P, hin, hcp, hgp, hP, hU, hUB, h⟩ <;>
      simp only [runOp, h]
    · exact hs
    · exact hs
    · exact hs
    · exact hs
    · constructor
      · show 0 ≤ st.usd_balance - U
        linarith
      · show ∀ r ∈ update_portfolio st.portfolio coin
            (portfolioGet st.portfolio coin + quantDown 4 (U / P)), 0 < r.2
        exact update_portfolio_rows_pos coin _ hs.2
  | sell input net =>
    rcases cmd_sell_cases st input net now with h | h | h |
      ⟨coin, pair, Q, P, hin, hcp, hgp, hQ, hQH, h⟩ <;>
      simp only [runOp, h]
    · exact hs
    · exact hs
    · exact hs
    · have hP : 0 ≤ P := get_price_nonneg hn hgp
      have hg : 0 ≤ quantDown 2 (Q * P) :=
        quantDown_mul_nonneg 2 (le_of_lt hQ) hP
      constructor
      · show 0 ≤ st.usd_balance + quantDown 2 (Q * P)
        linarith [hs.1]
      · show ∀ r ∈ update_portfolio st.portfolio coin
            (portfolioGet st.portfolio coin - Q), 0 < r.2
        exact update_portfolio_rows_pos coin _ hs.2

/-- Solvency is preserved along any command sequence. -/
lemma solvent_runOps {st : LedgerState} (ops : List (Op × ℕ))
    (hs : Solvent st) (hn : ∀ p ∈ ops, p.1.pricesNonneg) :
    Solvent (runOps st ops) := by
  induction ops generalizing st with
  | nil => exact hs
  | cons p rest ih =>
    exact ih (solvent_runOp p.1 p.2 hs (hn p (List.mem_cons_self p rest)))
      (fun q hq => hn q (List.mem_cons_of_mem p hq))

/-- A fresh account is solvent. -/
lemma solvent_fresh : Solvent freshState := by
  constructor
  · norm_num [freshState, INITIAL_USD_BALANCE]
  · intro r hr
    simp [freshState] at hr

/-- C3: starting from a fresh account, after every prefix of any sequence
of buy and sell commands (whose consumed prices are non-negative) the
observable state satisfies `usd_balance ≥ 0` and every stored holding row
has `quantity > 0`; a resulting quantity ≤ 0 is removed as a row rather
than stored (deletion is part of `update_portfolio`, proved solvent
here). -/
theorem ledger_invariant (ops : List (Op × ℕ))
    (hn : ∀ p ∈ ops, p.1.pricesNonneg) :
    ∀ n, Solvent (runOps freshState (ops.take n)) := by
  intro n
  exact solvent_runOps (ops.take n) solvent_fresh
    (fun q hq => hn q (List.take_subset n ops hq))

/-- Witness for C3: the spec's example scenario — buy 100 USD of `btc` at
50000, then sell the acquired 0.0020 at 60000 — keeps the account
solvent. -/
theorem ledger_invariant_witness :
    Solvent (runOps freshState
      [(Op.buy (.args "btc" (some 100)) (.jsonPrice 50000), 0),
       (Op.sell (.args "btc" (some (1 / 500))) (.jsonPrice 60000), 1)]) := by
  have h := ledger_invariant
    [(Op.buy (.args "btc" (some 100)) (.jsonPrice 50000), 0),
     (Op.sell (.args "btc" (some (1 / 500))) (.jsonPrice 60000), 1)]
    ?_ 2
  · simpa using h
  · intro p hp
    rcases List.mem_cons.mp hp with rfl | hp
    · exact trivial
    · rcases List.mem_cons.mp hp with rfl | hp
      · show NetResponse.nonnegPrice (.jsonPrice 60000)
        norm_num [NetResponse.nonnegPrice]
      · cases hp

/-- Witness for C2 at the spec's example: holding 0.0020 `btc`, sell all
of it at price 60000 → gain 120, balance 10020, row deleted. -/
theorem sell_conservation_witness :
    portfolioGet (cmd_sell ⟨9900, [("btc", 1 / 500)], [], 1⟩
        (.args "btc" (some (1 / 500))) (.jsonPrice 60000) 1).state.portfolio
        "btc" = 0 ∧
    hasRow (cmd_sell ⟨9900, [("btc", 1 / 500)], [], 1⟩
        (.args "btc" (some (1 / 500))) (.jsonPrice 60000) 1).state.portfolio
        "btc" = false ∧
    (cmd_sell ⟨9900, [("btc", 1 / 500)], [], 1⟩
        (.args "btc" (some (1 / 500))) (.jsonPrice 60000) 1).state.usd_balance
        = 10020 := by
  have h := sell_conservation ⟨9900, [("btc", 1 / 500)], [], 1⟩
    "btc" "BTCUSDT" (1 / 500) 60000 (.jsonPrice 60000) 1
    (by decide) (by decide) (by norm_num) (by simp [portfolioGet])
  refine ⟨?_, ?_, ?_⟩
  · rw [h.1]
    simp [portfolioGet]
  · exact h.2.1 (by simp [portfolioGet])
  · rw [h.2.2.1]
    norm_num [quantDown, truncTowardZero]

/-- C4: every rejected trade — malformed argument, unknown coin,
unparseable or non-positive amount, insufficient funds or holdings, or
unavailable price — returns the corresponding typed failure and leaves the
state (balance, every holding, and the history) exactly as before the
call. -/
theorem rejected_trade_no_effect (st : LedgerState) (input : RawArg)
    (net : NetResponse) (now : ℕ) :
    ((cmd_buy st input net now).result.isSuccess = false →
      (cmd_buy st input net now).state = st) ∧
    ((cmd_sell st input net now).result.isSuccess = false →
      (cmd_sell st input net now).state = st) ∧
    (input = .malformed →
      (cmd_buy st input net now).result = .invalidInput ∧
      (cmd_sell st input net now).result = .invalidInput) ∧
    (∀ coin num, input = .args coin num → coinPair coin = none →
      (cmd_buy st input net now).result = .invalidInput ∧
      (cmd_sell st input net now).result = .invalidInput) ∧
    (∀ coin, input = .args coin none →
      (cmd_buy st input net now).result = .invalidInput ∧
      (cmd_sell st input net now).result = .invalidInput) ∧
    (∀ coin v, input = .args coin (some v) → v ≤ 0 →
      (cmd_buy st input net now).result = .invalidInput ∧
      (cmd_sell st input net now).result = .invalidInput) ∧
    (∀ coin pair v, input = .args coin (some v) → coinPair coin = some pair →
      0 < v →
      (st.usd_balance < v →
        (cmd_buy st input net now).result = .insufficientFunds) ∧
      (portfolioGet st.portfolio coin < v →
        (cmd_sell st input net now).result = .insufficientHoldings)) ∧
    (∀ coin pair v, input = .args coin (some v) → coinPair coin = some pair →
      0 < v → get_price pair net = none →
      (v ≤ st.usd_balance →
        (cmd_buy st input net now).result = .priceUnavailable) ∧
      (v ≤ portfolioGet st.portfolio coin →
        (cmd_sell st input net now).result = .priceUnavailable)) := by
  refine ⟨?_, ?_, ?_, ?_, ?_, ?_, ?_, ?_⟩
  · intro hf
    rcases cmd_buy_cases st input net now with h | h | h | h |
      ⟨coin, pair, U, P, -, -, -, -, -, -, h⟩ <;> rw [h]
    rw [h] at hf
    cases hf
  · intro hf
    rcases cmd_sell_cases st input net now with h | h | h |
      ⟨coin, pair, Q, P, -, -, -, -, -, h⟩ <;> rw [h]
    rw [h] at hf
    cases hf
  · rintro rfl
    exact ⟨rfl, rfl⟩
  · rintro coin num rfl hcp
    constructor
    · simp [cmd_buy, hcp]
    · simp [cmd_sell, hcp]
  · rintro coin rfl
    cases hcp : coinPair coin
    · exact ⟨by simp [cmd_buy, hcp], by simp [cmd_sell, hcp]⟩
    · exact ⟨by simp [cmd_buy, hcp], by simp [cmd_sell, hcp]⟩
  · rintro coin v rfl hv
    cases hcp : coinPair coin
    · exact ⟨by simp [cmd_buy, hcp], by simp [cmd_sell, hcp]⟩
    · exact ⟨by simp [cmd_buy, hcp, if_pos hv],
             by simp [cmd_sell, hcp, if_pos hv]⟩
  · rintro coin pair v rfl hcp hv
    constructor
    · intro hb
      simp [cmd_buy, hcp, if_neg (not_le.mpr hv), if_pos hb]
    · intro hh
      simp [cmd_sell, hcp, if_neg (not_le.mpr hv), if_pos hh]
  · rintro coin pair v rfl hcp hv hgp
    constructor
    · intro hb
      simp [cmd_buy, hcp, if_neg (not_le.mpr hv), if_neg (not_lt.mpr hb), hgp]
    · intro hh
      simp [cmd_sell, hcp, if_neg (not_le.mpr hv), if_neg (not_lt.mpr hh), hgp]

/-- Witness for C4: a buy of 20000 USD against a fresh balance of 10000,
with the network down, is rejected as `insufficientFunds` and the account
is byte-identical afterwards. -/
theorem rejected_trade_no_effect_witness :
    (cmd_buy freshState (.args "btc" (some 20000)) .netError 0).result
        = .insufficientFunds ∧
    (cmd_buy freshState (.args "btc" (some 20000)) .netError 0).state
        = freshState := by
  have h := rejected_trade_no_effect freshState (.args "btc" (some 20000))
    .netError 0
  have hres : (cmd_buy freshState (.args "btc" (some 20000)) .netError 0).result
      = .insufficientFunds :=
    ((h.2.2.2.2.2.2.1) "btc" "BTCUSDT" 20000 rfl (by decide) (by norm_num)).1
      (by norm_num [freshState, INITIAL_USD_BALANCE])
  exact ⟨hres, h.1 (by rw [hres]; rfl)⟩

/-- C5 counterexample: the apply phase of a concrete successful buy (fresh
account, 100 USD of `btc` at price 50000) passes through the observable
state `⟨9900, [], [], 0⟩` — the balance already debited, the holding not
yet credited, no history row.  Each write runs on its own autocommit
connection (`isolation_level=None`), so this state is externally visible:
the three writes are not one all-or-nothing transaction, and no step
re-verifies anything. -/
theorem apply_phase_intermediate_state_cex :
    buyApplyTrace freshState "btc" 100 (1 / 500) 50000 0 =
      [freshState,
       ⟨9900, [], [], 0⟩,
       ⟨9900, [("btc", 1 / 500)], [], 0⟩,
       ⟨9900, [("btc", 1 / 500)], [⟨0, "buy", "btc", 1 / 500, 50000, 0⟩], 1⟩] ∧
    (cmd_buy freshState (.args "btc" (some 100)) (.jsonPrice 50000) 0).state =
      ⟨9900, [("btc", 1 / 500)], [⟨0, "buy", "btc", 1 / 500, 50000, 0⟩], 1⟩ := by
  have hq : quantDown 4 ((100 : ℚ) / 50000) = 1 / 500 := by
    norm_num [quantDown, truncTowardZero]
  constructor
  · norm_num [buyApplyTrace, buyWriteBalance, buyWriteHolding, add_history,
      update_portfolio, portfolioGet, hasRow, freshState, INITIAL_USD_BALANCE]
  · have hcp : coinPair "btc" = some "BTCUSDT" := by decide
    have hgp : get_price "BTCUSDT" (NetResponse.jsonPrice 50000)
        = some 50000 := by decide
    rw [cmd_buy_success 0 hcp hgp (by norm_num) (by norm_num)
      (by norm_num [freshState, INITIAL_USD_BALANCE])]
    rw [hq]
    norm_num [buyApply, buyWriteBalance, buyWriteHolding, add_history,
      update_portfolio, portfolioGet, hasRow, freshState, INITIAL_USD_BALANCE]

/-- C5 as amended: the apply phase of a trade is three separately
committed single-statement writes, in source order (buy: balance,
holding, history; sell: holding, balance, history), with an externally
observable state between them; the write steps contain no re-verification
— `buyApply` updates unconditionally whatever the values are — and the
completed success path performs exactly these three writes. -/
theorem apply_three_autocommit_writes :
    (∀ (st : LedgerState) (coin pair : String) (U P : ℚ)
        (net : NetResponse) (now : ℕ),
      coinPair coin = some pair → get_price pair net = some P → P ≠ 0 →
      0 < U → U ≤ st.usd_balance →
      (cmd_buy st (.args coin (some U)) net now).state =
        buyApply st coin U (quantDown 4 (U / P)) P now ∧
      buyApplyTrace st coin U (quantDown 4 (U / P)) P now =
        [st, buyWriteBalance st U,
         buyWriteHolding (buyWriteBalance st U) coin (quantDown 4 (U / P)),
         buyApply st coin U (quantDown 4 (U / P)) P now] ∧
      (buyWriteBalance st U).usd_balance = st.usd_balance - U ∧
      (buyWriteBalance st U).portfolio = st.portfolio ∧
      (buyWriteBalance st U).history = st.history) ∧
    (∀ (st : LedgerState) (coin : String) (U ca P : ℚ) (now : ℕ),
      (buyApply st coin U ca P now).usd_balance = st.usd_balance - U) ∧
    (∀ (st : LedgerState) (coin pair : String) (Q P : ℚ)
        (net : NetResponse) (now : ℕ),
      coinPair coin = some pair → get_price pair net = some P →
      0 < Q → Q ≤ portfolioGet st.portfolio coin →
      (cmd_sell st (.args coin (some Q)) net now).state =
        sellApply st coin Q (quantDown 2 (Q * P)) P now ∧
      sellApplyTrace st coin Q (quantDown 2 (Q * P)) P now =
        [st, sellWriteHolding st coin Q,
         sellWriteBalance (sellWriteHolding st coin Q) (quantDown 2 (Q * P)),
         sellApply st coin Q (quantDown 2 (Q * P)) P now] ∧
      (sellWriteHolding st coin Q).usd_balance = st.usd_balance ∧
      (sellWriteHolding st coin Q).history = st.history) := by
  refine ⟨?_, ?_, ?_⟩
  · intro st coin pair U P net now hcp hgp hP hU hUB
    rw [cmd_buy_success now hcp hgp hP hU hUB]
    exact ⟨rfl, rfl, rfl, rfl, rfl⟩
  · intro st coin U ca P now
    rfl
  · intro st coin pair Q P net now hcp hgp hQ hQH
    rw [cmd_sell_success now hcp hgp hQ hQH]
    exact ⟨rfl, rfl, rfl, rfl⟩

/-- Witness for the amended C5 at the concrete buy used throughout. -/
theorem apply_three_autocommit_writes_witness :
    (cmd_buy freshState (.args "btc" (some 100)) (.jsonPrice 50000) 0).state =
      buyApply freshState "btc" 100 (quantDown 4 ((100 : ℚ) / 50000)) 50000 0 ∧
    (buyWriteBalance freshState 100).portfolio = freshState.portfolio := by
  have h := apply_three_autocommit_writes.1 freshState "btc" "BTCUSDT"
    100 50000 (.jsonPrice 50000) 0 (by decide) (by decide) (by norm_num)
    (by norm_num) (by norm_num [freshState, INITIAL_USD_BALANCE])
  exact ⟨h.1, h.2.2.2.1⟩

/-- C6: the price adapter is a total function into `Option`: the special
stable coin pair returns exactly `1` whatever the network does (it never
queries it), and for every other symbol a network error/timeout/malformed
response (`netError`) or a missing price field (`jsonNoPrice`) yields
`none`, while a parsed price field is returned as-is — no exception
escapes and no sentinel price is produced. -/
theorem price_adapter_total (sym : String) (net : NetResponse) :
    get_price "USDTUSDT" net = some 1 ∧
    (sym ≠ "USDTUSDT" →
      get_price sym .netError = none ∧
      get_price sym .jsonNoPrice = none ∧
      ∀ p, get_price sym (.jsonPrice p) = some p) := by
  constructor
  · rfl
  · intro hs
    have hb : (sym == "USDTUSDT") = false := by
      simpa using hs
    exact ⟨by simp [get_price, hb], by simp [get_price, hb],
      fun p => by simp [get_price, hb]⟩

/-- Witness for C6 at the `btc` trading pair and a concrete failed
fetch. -/
theorem price_adapter_total_witness :
    get_price "USDTUSDT" .jsonNoPrice = some 1 ∧
    get_price "BTCUSDT" .netError = none := by
  have h := price_adapter_total "BTCUSDT" .jsonNoPrice
  exact ⟨h.1, (h.2 (by decide)).1⟩

/-- C7 counterexample: with a fresh account, a buy of 20000 USD (more than
the 10000 balance) while the network is down is rejected as
`insufficientFunds` and never fetches a price — under the claimed order
(FetchPrice before CheckSufficiency) it would have to terminate with
`priceUnavailable`.  Moreover a successful buy's executed step list is not
the claimed `Validate, AcquireLock, FetchPrice, CheckSufficiency,
AtomicApply, Release` sequence: there are no lock steps at all and the
sufficiency check precedes the fetch. -/
theorem pipeline_order_cex :
    (cmd_buy freshState (.args "btc" (some 20000)) .netError 0).result
        = .insufficientFunds ∧
    (cmd_buy freshState (.args "btc" (some 20000)) .netError 0).events
        = [.validate, .checkSufficiency] ∧
    Event.fetchPrice ∉
      (cmd_buy freshState (.args "btc" (some 20000)) .netError 0).events ∧
    (cmd_buy freshState (.args "btc" (some 100)) (.jsonPrice 50000) 0).events
        ≠ [.validate, .acquireLock, .fetchPrice, .checkSufficiency,
           .atomicApply, .release] := by
  refine ⟨by decide, by decide, by decide, by decide⟩

/-- C7 as amended: both buy and sell execute an initial segment of
`Validate → CheckSufficiency → FetchPrice → AtomicApply` — the sufficiency
check is performed before the price fetch, and there are no lock
acquire/release steps; for malformed, non-positive, unparseable or
unknown-coin input the command terminates with `invalidInput` having
executed only the validation step, fetching no price; a successful trade
executes all four steps. -/
theorem pipeline_order (st : LedgerState) (input : RawArg)
    (net : NetResponse) (now : ℕ) :
    (∃ n, (cmd_buy st input net now).events = STEP_ORDER.take n) ∧
    (∃ n, (cmd_sell st input net now).events = STEP_ORDER.take n) ∧
    ((cmd_buy st input net now).result = .invalidInput →
      (cmd_buy st input net now).events = [.validate] ∧
      Event.fetchPrice ∉ (cmd_buy st input net now).events) ∧
    ((cmd_sell st input net now).result = .invalidInput →
      (cmd_sell st input net now).events = [.validate] ∧
      Event.fetchPrice ∉ (cmd_sell st input net now).events) ∧
    ((cmd_buy st input net now).result.isSuccess = true →
      (cmd_buy st input net now).events = STEP_ORDER) ∧
    ((cmd_sell st input net now).result.isSuccess = true →
      (cmd_sell st input net now).events = STEP_ORDER) := by
  refine ⟨?_, ?_, ?_, ?_, ?_, ?_⟩
  · rcases cmd_buy_cases st input net now with h | h | h | h |
      ⟨c, p, U, P, -, -, -, -, -, -, h⟩
    · exact ⟨1, by rw [h]; rfl⟩
    · exact ⟨2, by rw [h]; rfl⟩
    · exact ⟨3, by rw [h]; rfl⟩
    · exact ⟨3, by rw [h]; rfl⟩
    · exact ⟨4, by rw [h]; rfl⟩
  · rcases cmd_sell_cases st input net now with h | h | h |
      ⟨c, p, Q, P, -, -, -, -, -, h⟩
    · exact ⟨1, by rw [h]; rfl⟩
    · exact ⟨2, by rw [h]; rfl⟩
    · exact ⟨3, by rw [h]; rfl⟩
    · exact ⟨4, by rw [h]; rfl⟩
  · intro hres
    rcases cmd_buy_cases st input net now with h | h | h | h |
      ⟨c, p, U, P, -, -, -, -, -, -, h⟩
    · rw [h]
      exact ⟨rfl, by simp⟩
    · rw [h] at hres; simp at hres
    · rw [h] at hres; simp at hres
    · rw [h] at hres; simp at hres
    · rw [h] at hres; simp at hres
  · intro hres
    rcases cmd_sell_cases st input net now with h | h | h |
      ⟨c, p, Q, P, -, -, -, -, -, h⟩
    · rw [h]
      exact ⟨rfl, by simp⟩
    · rw [h] at hres; simp at hres
    · rw [h] at hres; simp at hres
    · rw [h] at hres; simp at hres
  · intro hres
    rcases cmd_buy_cases st input net now with h | h | h | h |
      ⟨c, p, U, P, -, -, -, -, -, -, h⟩
    · rw [h] at hres; simp [TradeResult.isSuccess] at hres
    · rw [h] at hres; simp [TradeResult.isSuccess] at hres
    · rw [h] at hres; simp [TradeResult.isSuccess] at hres
    · rw [h] at hres; simp [TradeResult.isSuccess] at hres
    · rw [h]
  · intro hres
    rcases cmd_sell_cases st input net now with h | h | h |
      ⟨c, p, Q, P, -, -, -, -, -, h⟩
    · rw [h] at hres; simp [TradeResult.isSuccess] at hres
    · rw [h] at hres; simp [TradeResult.isSuccess] at hres
    · rw [h] at hres; simp [TradeResult.isSuccess] at hres
    · rw [h]

/-- Witness for the amended C7 at a malformed input. -/
theorem pipeline_order_witness :
    (cmd_buy freshState .malformed .netError 0).events = [Event.validate] ∧
    Event.fetchPrice ∉ (cmd_buy freshState .malformed .netError 0).events :=
  (pipeline_order freshState .malformed .netError 0).2.2.1 rfl

/-- The Python default `limit=10` of `get_history`. -/
def DEFAULT_HISTORY_LIMIT : ℕ := 10

/-- Model of the query of `get_history`,
`SELECT ... WHERE user_id = ? ORDER BY timestamp DESC LIMIT ?` as a
relation between the stored rows (in insertion order) and a result list:
the result is sorted by timestamp descending, is drawn from the table,
keeps the rows with the largest timestamps, and has length
`min limit count`.  Rows sharing a timestamp are NOT ordered relative to
each other — the query has no secondary sort key, so any of their
relative orders is a possible result. -/
def histOutputValid (rows : List HistoryEntry) (limit : ℕ)
    (out : List HistoryEntry) : Prop :=
  List.Chain' (fun a b => b.timestamp ≤ a.timestamp) out ∧
  out.length = min limit rows.length ∧
  ∃ rest, (out ++ rest).Perm rows ∧
    ∀ e ∈ rest, ∀ o ∈ out, e.timestamp ≤ o.timestamp

/-- C8 counterexample: two history rows written within the same clock
second (equal `timestamp`, ids 0 and 1).  Both relative orders are valid
results of the embedded query, and in particular the id-ascending output
`[row 0, row 1]` is a valid result even though it does not present the
most recent insertion (sequence id 1) first: the query does not break
timestamp ties by insertion order / sequence id. -/
theorem history_tiebreak_cex :
    histOutputValid
      [⟨0, "buy", "btc", 1, 50000, 5⟩, ⟨1, "sell", "btc", 1, 50000, 5⟩]
      DEFAULT_HISTORY_LIMIT
      [⟨0, "buy", "btc", 1, 50000, 5⟩, ⟨1, "sell", "btc", 1, 50000, 5⟩] ∧
    histOutputValid
      [⟨0, "buy", "btc", 1, 50000, 5⟩, ⟨1, "sell", "btc", 1, 50000, 5⟩]
      DEFAULT_HISTORY_LIMIT
      [⟨1, "sell", "btc", 1, 50000, 5⟩, ⟨0, "buy", "btc", 1, 50000, 5⟩] ∧
    ¬ List.Chain' (fun a b => b.id ≤ a.id)
      [(⟨0, "buy", "btc", 1, 50000, 5⟩ : HistoryEntry),
       ⟨1, "sell", "btc", 1, 50000, 5⟩] := by
  refine ⟨⟨?_, ?_, [], ?_, ?_⟩, ⟨?_, ?_, [], ?_, ?_⟩, ?_⟩
  · simp
  · simp [DEFAULT_HISTORY_LIMIT]
  · simp
  · simp
  · simp
  · simp [DEFAULT_HISTORY_LIMIT]
  · simpa using List.Perm.swap
      (⟨0, "buy", "btc", 1, 50000, 5⟩ : HistoryEntry)
      ⟨1, "sell", "btc", 1, 50000, 5⟩ []
  · simp
  · simp

/-- C8 as amended: each successful trade appends exactly one history row
(none on failure), existing rows are never updated or deleted (the old
history is an unchanged initial segment), and `get_history` returns rows
ordered by timestamp, most recent first, drawn from the table and
truncated to the requested limit (default 10) — but the relative order of
rows sharing a timestamp is unspecified (no secondary sort key). -/
theorem history_append_and_query (st : LedgerState) (input : RawArg)
    (net : NetResponse) (now : ℕ) (rows out : List HistoryEntry)
    (limit : ℕ) :
    ((cmd_buy st input net now).result.isSuccess = false →
      (cmd_buy st input net now).state.history = st.history) ∧
    ((cmd_buy st input net now).result.isSuccess = true →
      ∃ e, (cmd_buy st input net now).state.history = st.history ++ [e]) ∧
    ((cmd_sell st input net now).result.isSuccess = false →
      (cmd_sell st input net now).state.history = st.history) ∧
    ((cmd_sell st input net now).result.isSuccess = true →
      ∃ e, (cmd_sell st input net now).state.history = st.history ++ [e]) ∧
    (histOutputValid rows limit out →
      List.Chain' (fun a b => b.timestamp ≤ a.timestamp) out ∧
      out.length = min limit rows.length ∧
      ∀ e ∈ out, e ∈ rows) ∧
    DEFAULT_HISTORY_LIMIT = 10 := by
  refine ⟨?_, ?_, ?_, ?_, ?_, rfl⟩
  · intro hres
    rcases cmd_buy_cases st input net now with h | h | h | h |
      ⟨c, p, U, P, -, -, -, -, -, -, h⟩
    · rw [h]
    · rw [h]
    · rw [h]
    · rw [h]
    · rw [h] at hres; simp [TradeResult.isSuccess] at hres
  · intro hres
    rcases cmd_buy_cases st input net now with h | h | h | h |
      ⟨c, p, U, P, -, -, -, -, -, -, h⟩
    · rw [h] at hres; simp [TradeResult.isSuccess] at hres
    · rw [h] at hres; simp [TradeResult.isSuccess] at hres
    · rw [h] at hres; simp [TradeResult.isSuccess] at hres
    · rw [h] at hres; simp [TradeResult.isSuccess] at hres
    · rw [h]
      exact ⟨⟨st.next_id, "buy", c, quantDown 4 (U / P), P, now⟩, rfl⟩
  · intro hres
    rcases cmd_sell_cases st input net now with h | h | h |
      ⟨c, p, Q, P, -, -, -, -, -, h⟩
    · rw [h]
    · rw [h]
    · rw [h]
    · rw [h] at hres; simp [TradeResult.isSuccess] at hres
  · intro hres
    rcases cmd_sell_cases st input net now with h | h | h |
      ⟨c, p, Q, P, -, -, -, -, -, h⟩
    · rw [h] at hres; simp [TradeResult.isSuccess] at hres
    · rw [h] at hres; simp [TradeResult.isSuccess] at hres
    · rw [h] at hres; simp [TradeResult.isSuccess] at hres
    · rw [h]
      exact ⟨⟨st.next_id, "sell", c, Q, P, now⟩, rfl⟩
  · rintro ⟨hchain, hlen, rest, hperm, -⟩
    refine ⟨hchain, hlen, ?_⟩
    intro e he
    exact hperm.subset (List.mem_append_left rest he)

/-- Witness for the amended C8: the concrete successful buy appends
exactly one row to the empty fresh history. -/
theorem history_append_and_query_witness :
    ∃ e, (cmd_buy freshState (.args "btc" (some 100))
        (.jsonPrice 50000) 0).state.history = freshState.history ++ [e] :=
  (history_append_and_query freshState (.args "btc" (some 100))
    (.jsonPrice 50000) 0 [] [] 0).2.1 (by decide)

/-- A buy can only crash when the validated input passed every check and
the fetched price was exactly `0` (the `Decimal` division raised). -/
lemma cmd_buy_crash_source (st : LedgerState) (input : RawArg)
    (net : NetResponse) (now : ℕ)
    (h : (cmd_buy st input net now).result = .crash) :
    ∃ coin pair V, input = .args coin (some V) ∧ coinPair coin = some pair ∧
      get_price pair net = some 0 ∧ 0 < V ∧ V ≤ st.usd_balance := by
  rcases input with _ | ⟨coin, num⟩
  · cases h
  · cases hcp : coinPair coin with
    | none => rw [show cmd_buy st (.args coin num) net now
        = ⟨.invalidInput, st, [.validate]⟩ by simp [cmd_buy, hcp]] at h; cases h
    | some pair =>
      rcases num with _ | U
      · rw [show cmd_buy st (.args coin none) net now
          = ⟨.invalidInput, st, [.validate]⟩ by simp [cmd_buy, hcp]] at h
        cases h
      · by_cases hU : U ≤ 0
        · rw [show cmd_buy st (.args coin (some U)) net now
            = ⟨.invalidInput, st, [.validate]⟩ by
              simp [cmd_buy, hcp, if_pos hU]] at h
          cases h
        · by_cases hB : st.usd_balance < U
          · rw [show cmd_buy st (.args coin (some U)) net now
              = ⟨.insufficientFunds, st, [.validate, .checkSufficiency]⟩ by
                simp [cmd_buy, hcp, if_neg hU, if_pos hB]] at h
            cases h
          · cases hgp : get_price pair net with
            | none =>
              rw [show cmd_buy st (.args coin (some U)) net now
                = ⟨.priceUnavailable, st,
                   [.validate, .checkSufficiency, .fetchPrice]⟩ by
                  simp [cmd_buy, hcp, if_neg hU, if_neg hB, hgp]] at h
              cases h
            | some P =>
              by_cases hP : P = 0
              · subst hP
                exact ⟨coin, pair, U, rfl, hcp, hgp,
                  lt_of_not_le hU, not_lt.mp hB⟩
              · rw [show cmd_buy st (.args coin (some U)) net now
                  = ⟨.success (quantDown 4 (U / P)) P,
                     buyApply st coin U (quantDown 4 (U / P)) P now,
                     STEP_ORDER⟩ by
                    simp [cmd_buy, hcp, if_neg hU, if_neg hB, hgp, ddiv,
                      if_neg hP, STEP_ORDER]] at h
                cases h

/-- C10: the price-fetch guard (`if price is None`) only excludes an
absent price, not a zero one — `get_price` hands a quoted `0` through —
and on a zero fetched price the buy path's quantity computation
`usd_amount / price` raises `DivisionByZero` (the `crash` outcome, with no
write performed).  The buy path is total exactly under the unstated
precondition that the fetched price is nonzero; the sell path never
divides and never crashes. -/
theorem buy_zero_price_division (st : LedgerState) (U : ℚ) (now : ℕ)
    (hU : 0 < U) (hUB : U ≤ st.usd_balance) :
    get_price "BTCUSDT" (.jsonPrice 0) = some 0 ∧
    (cmd_buy st (.args "btc" (some U)) (.jsonPrice 0) now).result = .crash ∧
    (cmd_buy st (.args "btc" (some U)) (.jsonPrice 0) now).state = st ∧
    (∀ input net now2, (cmd_buy st input net now2).result = .crash →
      ∃ coin pair V, input = .args coin (some V) ∧
        coinPair coin = some pair ∧ get_price pair net = some 0) ∧
    (∀ input net now2, (cmd_sell st input net now2).result ≠ .crash) := by
  have hcp : coinPair "btc" = some "BTCUSDT" := by decide
  have hgp : get_price "BTCUSDT" (NetResponse.jsonPrice 0) = some 0 := by decide
  have hred : cmd_buy st (.args "btc" (some U)) (.jsonPrice 0) now
      = ⟨.crash, st, [.validate, .checkSufficiency, .fetchPrice]⟩ := by
    simp [cmd_buy, hcp, hgp, if_neg (not_le.mpr hU),
      if_neg (not_lt.mpr hUB), ddiv]
  refine ⟨hgp, by rw [hred], by rw [hred], ?_, ?_⟩
  · intro input net now2 hcrash
    rcases cmd_buy_crash_source st input net now2 hcrash with
      ⟨coin, pair, V, hin, hc, hg, -, -⟩
    exact ⟨coin, pair, V, hin, hc, hg⟩
  · intro input net now2 hcrash
    rcases cmd_sell_cases st input net now2 with h | h | h |
      ⟨c, p, Q, P, -, -, -, -, -, h⟩ <;> rw [h] at hcrash <;> cases hcrash

/-- Witness for C10: buying 100 USD of `btc` from a fresh account while
the oracle quotes a price of exactly `0` crashes without writing. -/
theorem buy_zero_price_division_witness :
    (cmd_buy freshState (.args "btc" (some 100))
        (.jsonPrice 0) 0).result = .crash ∧
    (cmd_buy freshState (.args "btc" (some 100))
        (.jsonPrice 0) 0).state = freshState := by
  have h := buy_zero_price_division freshState 100 0 (by norm_num)
    (by norm_num [freshState, INITIAL_USD_BALANCE])
  exact ⟨h.2.1, h.2.2.1⟩

/-- Context for the concurrency claim (which itself concerns the asyncio
schedule and is outside this embedding): when two full-holding sells for
the same user are serialized — as they are when no `await` separates the
read-check-write window of the handler — the first succeeds and the
second fails with `insufficientHoldings`, and the holding never goes
negative. -/
lemma serialized_full_sells (st : LedgerState) (H P : ℚ)
    (net1 net2 : NetResponse) (hH : 0 < H)
    (hget : portfolioGet st.portfolio "btc" = H)
    (hgp : get_price "BTCUSDT" net1 = some P) :
    (cmd_sell st (.args "btc" (some H)) net1 0).result = .success H P ∧
    (cmd_sell (cmd_sell st (.args "btc" (some H)) net1 0).state
        (.args "btc" (some H)) net2 1).result = .insufficientHoldings := by
  have hcp : coinPair "btc" = some "BTCUSDT" := by decide
  have h1 := cmd_sell_success 0 hcp hgp hH (le_of_eq hget.symm)
  constructor
  · rw [h1]
  · rw [h1]
    have hafter : portfolioGet
        (sellApply st "btc" H (quantDown 2 (H * P)) P 0).portfolio "btc"
        = 0 := by
      show portfolioGet
        (update_portfolio st.portfolio "btc"
          (portfolioGet st.portfolio "btc" - H)) "btc" = 0
      rw [portfolioGet_update_self st.portfolio "btc" (by rw [hget]; linarith),
        hget]
      ring
    simp [cmd_sell, hcp, if_neg (not_le.mpr hH), hafter, if_pos hH]

end CryptoBot
